import Mathlib

/-!
Verification of `src/pygrep.py`, a line-oriented pattern-search tool.

Strings are modelled as `List Char`.  A match span, as produced by
`re.finditer`, is a half-open index pair `(start, end)` into the line.
The regex engine itself (Python's `re` module) is outside the repository;
it is abstracted as a compile function `List Char → Except msg finditer`
where a compiled pattern is represented by its `finditer` behaviour
`List Char → List Span`.
-/

/-- A match span `(start, end)`: the half-open range `[start, end)` of a
match within a line, as returned by `re.Match.span()`. -/
abbrev Span := Nat × Nat

/-- Python slicing `l[a:b]` for `0 ≤ a` and `0 ≤ b` (out-of-range indices
clamp, `a > b` gives the empty string), as used throughout `pygrep.py`. -/
def pySlice (l : List Char) (a b : Nat) : List Char :=
  (l.drop a).take (b - a)

/-- The decimal digit character for `d` (`str` of a digit in Python). -/
def digitChar (d : Nat) : Char :=
  match d with
  | 0 => '0' | 1 => '1' | 2 => '2' | 3 => '3' | 4 => '4'
  | 5 => '5' | 6 => '6' | 7 => '7' | 8 => '8' | _ => '9'

/-- Core of decimal rendering, structurally recursive on a fuel argument
(`fuel ≥ n` suffices, since `n / 10 < n` for `n ≥ 10`). -/
def numStrCore : Nat → Nat → List Char → List Char
  | 0, _, acc => acc
  | fuel + 1, n, acc =>
      if n < 10 then digitChar n :: acc
      else numStrCore fuel (n / 10) (digitChar (n % 10) :: acc)

/-- Python `str(n)` for a natural number `n`: its decimal digits, no
leading zeros (used by the f-strings of the formatters). -/
def numStr (n : Nat) : List Char :=
  numStrCore (n + 1) n []

/-- The ANSI "start red" control sequence `'\u001b[31m'`
(`ColorFormatter`, line 116). -/
def ansi_red : List Char := ['\x1b', '[', '3', '1', 'm']

/-- The ANSI "reset" control sequence `'\u001b[0m'`
(`ColorFormatter`, line 117). -/
def ansi_reset : List Char := ['\x1b', '[', '0', 'm']

/-- The loop of `UnderlineFormatter.format_string` (lines 42-47): builds
`caret_string` by appending, for each span, spaces under the text before
the match, one caret, and spaces under `line[s:e][:-1]`; threads
`start_index` (the previous span's end).  Returns the final
`(caret_string, start_index)`. -/
def underlineCaretLoop (line : List Char) (start : Nat) (acc : List Char) :
    List Span → List Char × Nat
  | [] => (acc, start)
  | (s, e) :: rest =>
      underlineCaretLoop line e
        (acc ++ (List.replicate (pySlice line start s).length ' '
          ++ '^' :: List.replicate
              ((pySlice line s e).take ((pySlice line s e).length - 1)).length ' '))
        rest

/-- `UnderlineFormatter.format_string` (lines 24-52).  After the loop, if
`caret_string` is non-empty it is extended with spaces under
`line[start_index:]` and the result is
`f'{file_name} {line_number} {line}{" "*len(file_name)} {" "*len(str(line_number))} {caret_string}\n'`;
otherwise the empty string is returned. -/
def UnderlineFormatter.format_string (matchesList : List Span) (file_name : List Char)
    (line_number : Nat) (line : List Char) : List Char :=
  let r := underlineCaretLoop line 0 [] matchesList
  if r.1.length > 0 then
    file_name ++ ' ' :: numStr line_number ++ ' ' :: line
      ++ List.replicate file_name.length ' '
      ++ ' ' :: List.replicate (numStr line_number).length ' '
      ++ ' ' :: (r.1 ++ List.replicate (line.drop r.2).length ' ') ++ ['\n']
  else []

/-- The full caret row of `UnderlineFormatter.format_string`: the loop's
`caret_string` followed by the trailing `" " * len(line[start_index:])`
added on line 49. -/
def underlineCaretRow (line : List Char) (matchesList : List Span) : List Char :=
  let r := underlineCaretLoop line 0 [] matchesList
  r.1 ++ List.replicate (line.drop r.2).length ' '

/-- `StandardFormatter.format_string` (lines 57-72): non-empty match list
gives `f'{file_name} {line_number} {line}'`, else the empty string. -/
def StandardFormatter.format_string (matchesList : List Span) (file_name : List Char)
    (line_number : Nat) (line : List Char) : List Char :=
  if matchesList.length > 0 then file_name ++ ' ' :: numStr line_number ++ ' ' :: line
  else []

/-- `MachineFormatter.format_string` (lines 77-95): uses only the first
match of the list, returning
`f'{file_name}:{line_number}:{start_index}:{line[start_index:end_index]}\n'`;
the empty string when there is no match. -/
def MachineFormatter.format_string (matchesList : List Span) (file_name : List Char)
    (line_number : Nat) (line : List Char) : List Char :=
  match matchesList with
  | [] => []
  | (s, e) :: _ =>
      file_name ++ ':' :: numStr line_number ++ ':' :: numStr s
        ++ ':' :: pySlice line s e ++ ['\n']

/-- The loop of `ColorFormatter.format_string` (lines 119-124): builds
`colored_line` by appending, for each span, the unmatched text before the
match and the matched substring wrapped in `ansi_red`/`ansi_reset`;
threads `start_index`.  Returns the final `(colored_line, start_index)`. -/
def colorLoop (line : List Char) (start : Nat) (acc : List Char) :
    List Span → List Char × Nat
  | [] => (acc, start)
  | (s, e) :: rest =>
      colorLoop line e
        (acc ++ pySlice line start s ++ (ansi_red ++ pySlice line s e ++ ansi_reset))
        rest

/-- `ColorFormatter.format_string` (lines 100-128).  After the loop, if
`colored_line` is non-empty it is extended with `line[start_index:]` and
the result is `f'{file_name} {line_number} {colored_line}'`; otherwise
the empty string is returned. -/
def ColorFormatter.format_string (matchesList : List Span) (file_name : List Char)
    (line_number : Nat) (line : List Char) : List Char :=
  let r := colorLoop line 0 [] matchesList
  if r.1.length > 0 then
    file_name ++ ' ' :: numStr line_number ++ ' ' :: (r.1 ++ line.drop r.2)
  else []

/-- The four formatter variants produced by `FormatterFactory`
(lines 131-158). -/
inductive Formatter where
  | standard
  | color
  | machine
  | underline
deriving DecidableEq

/-- Dynamic dispatch of `IFormatter.format_string` over the four
concrete formatter classes. -/
def IFormatter.format_string (fmt : Formatter) (matchesList : List Span)
    (file_name : List Char) (line_number : Nat) (line : List Char) : List Char :=
  match fmt with
  | .standard => StandardFormatter.format_string matchesList file_name line_number line
  | .color => ColorFormatter.format_string matchesList file_name line_number line
  | .machine => MachineFormatter.format_string matchesList file_name line_number line
  | .underline => UnderlineFormatter.format_string matchesList file_name line_number line

/-- The result of a run: the strings printed to stdout in order (each
`print(formatted_line, end='')` or diagnostic `print(...)` contributes one
element), the process exit code, and the number of `re.compile`
invocations performed (the `try` block at the top of `_print_matches`
runs once per call, so this counts its executions). -/
structure RunResult where
  output : List (List Char)
  exitCode : Nat
  compiles : Nat
deriving DecidableEq

/-- The diagnostic `f'Bad regex, {ex}, regex: "{raw_regex_string}"'` of
line 181, with the trailing newline added by `print`. -/
def badRegexDiagnostic (ex regex : List Char) : List Char :=
  "Bad regex, ".toList ++ ex ++ ", regex: \x22".toList ++ regex ++ "\x22\n".toList

/-- A model of `re.compile`: maps a pattern string either to an error
message (`str` of the raised `re.error`) or to the compiled pattern,
which is represented by its `finditer` behaviour: the ordered list of
`span()` pairs it yields on a given line. -/
abbrev RegexCompiler := List Char → Except (List Char) (List Char → List Span)

/-- The `for line_number, line in enumerate(iterable, 1)` loop of
`_print_matches` (lines 184-188): scan each line with the compiled
pattern's `finditer`, format it, and print (collect) the formatted string
when it is non-empty (Python string truthiness). -/
def formatLines (finditer : List Char → List Span) (fmt : Formatter)
    (file_name : List Char) (n : Nat) : List (List Char) → List (List Char)
  | [] => []
  | line :: rest =>
      let formatted := IFormatter.format_string fmt (finditer line) file_name n line
      if formatted = [] then formatLines finditer fmt file_name (n + 1) rest
      else formatted :: formatLines finditer fmt file_name (n + 1) rest

/-- `PatternMatcher._print_matches` (lines 175-188).  It first compiles
the regex (`r'{}'.format(regex)` is the identity on a string); on
`re.error` it prints the diagnostic and raises `SystemExit(1)`, producing
no formatted output; otherwise it scans every line of the iterable and
exits normally. -/
def printMatchesInner (compile : RegexCompiler) (regex : List Char)
    (fmt : Formatter) (iterable : List (List Char)) (file_name : List Char) : RunResult :=
  match compile regex with
  | .error ex => ⟨[badRegexDiagnostic ex regex], 1, 1⟩
  | .ok finditer => ⟨formatLines finditer fmt file_name 1 iterable, 0, 1⟩

/-- The literal source identifier `'STDIN'`, the default `file_name`
argument of `_print_matches`. -/
def STDIN_ID : List Char := "STDIN".toList

/-- `PatternMatcher.print_matches_from_strings` (lines 172-173): a single
`_print_matches` call with the default source identifier `'STDIN'`. -/
def print_matches_from_strings (compile : RegexCompiler) (regex : List Char)
    (fmt : Formatter) (strings_list : List (List Char)) : RunResult :=
  printMatchesInner compile regex fmt strings_list STDIN_ID

/-- `PatternMatcher.print_matches_from_files` (lines 167-170): one
`_print_matches` call per file, in order; a `SystemExit` raised inside
a call aborts the loop (output already printed by earlier files
remains).  A file is modelled as its name together with the list of
lines its handle yields. -/
def print_matches_from_files (compile : RegexCompiler) (regex : List Char)
    (fmt : Formatter) : List (List Char × List (List Char)) → RunResult
  | [] => ⟨[], 0, 0⟩
  | (file_name, lines) :: rest =>
      let r := printMatchesInner compile regex fmt lines file_name
      if r.exitCode = 0 then
        let r2 := print_matches_from_files compile regex fmt rest
        ⟨r.output ++ r2.output, r2.exitCode, r.compiles + r2.compiles⟩
      else ⟨r.output, r.exitCode, r.compiles⟩

/-- Python `str.isspace` on the whitespace characters relevant to ASCII
and Latin-1 text (the range `pygrep` processes in practice); `rstrip()`
with no argument strips exactly these from the end of a string. -/
def py_isspace (c : Char) : Bool :=
  c = ' ' || c = '\t' || c = '\n' || c = '\r' || c = '\x0b' || c = '\x0c'
    || c = '\x1c' || c = '\x1d' || c = '\x1e' || c = '\x1f' || c = '\x85' || c = '\xa0'

/-- Python `line.rstrip()` with no argument: remove all trailing
whitespace characters. -/
def rstrip (l : List Char) : List Char :=
  (l.reverse.dropWhile py_isspace).reverse

/-- `read_from_stdin` (lines 191-201): collect stdin lines, stopping
(and dropping the sentinel) at the first line whose `rstrip()` equals
`'q'`. -/
def read_from_stdin : List (List Char) → List (List Char)
  | [] => []
  | line :: rest =>
      if rstrip line = ['q'] then []
      else line :: read_from_stdin rest

/-- Modelled from the spec (§6): the line content "after trimming only
the line terminator" — the line with a single trailing `'\n'` removed
when present.  This is the sentinel test the spec describes for
`read_from_stdin`; the source uses `rstrip()` instead. -/
def stripLineTerminatorSpec (l : List Char) : List Char :=
  if l.getLast? = some '\n' then l.dropLast else l

/-- The final value of the threaded `start_index` variable after the
per-match loops of the Color and Underline formatters: the end of the
last span, or the initial value when there are no spans. -/
def finalStart (start : Nat) : List Span → Nat
  | [] => start
  | (_, e) :: rest => finalStart e rest

/-- The string the Color formatter's loop appends to `colored_line`,
without the accumulator: segment before each match, then the match
wrapped in red/reset. -/
def colorBody (line : List Char) (start : Nat) : List Span → List Char
  | [] => []
  | (s, e) :: rest =>
      pySlice line start s ++ ansi_red ++ pySlice line s e ++ ansi_reset
        ++ colorBody line e rest

/-- The string the Underline formatter's loop appends to `caret_string`,
without the accumulator. -/
def caretBody (line : List Char) (start : Nat) : List Span → List Char
  | [] => []
  | (s, e) :: rest =>
      List.replicate (pySlice line start s).length ' '
        ++ '^' :: List.replicate
            ((pySlice line s e).take ((pySlice line s e).length - 1)).length ' '
        ++ caretBody line e rest

theorem colorLoop_eq (line : List Char) (ms : List Span) :
    ∀ start acc, colorLoop line start acc ms = (acc ++ colorBody line start ms, finalStart start ms) := by
  induction ms with
  | nil => intro start acc; simp [colorLoop, colorBody, finalStart]
  | cons p rest ih =>
      intro start acc
      obtain ⟨s, e⟩ := p
      simp [colorLoop, colorBody, finalStart, ih, List.append_assoc]

theorem underlineCaretLoop_eq (line : List Char) (ms : List Span) :
    ∀ start acc, underlineCaretLoop line start acc ms
      = (acc ++ caretBody line start ms, finalStart start ms) := by
  induction ms with
  | nil => intro start acc; simp [underlineCaretLoop, caretBody, finalStart]
  | cons p rest ih =>
      intro start acc
      obtain ⟨s, e⟩ := p
      simp [underlineCaretLoop, caretBody, finalStart, ih, List.append_assoc]

theorem digitChar_spec (d : Nat) : 48 ≤ (digitChar d).toNat ∧ (digitChar d).toNat ≤ 57 := by
  unfold digitChar
  split <;> decide

theorem numStrCore_mem (fuel : Nat) : ∀ n acc c, c ∈ numStrCore fuel n acc →
    c ∈ acc ∨ ∃ d, c = digitChar d := by
  induction fuel with
  | zero => intro n acc c h; exact Or.inl h
  | succ fuel ih =>
      intro n acc c h
      unfold numStrCore at h
      by_cases hn : n < 10
      · rw [if_pos hn] at h
        rcases List.mem_cons.mp h with h1 | h1
        · exact Or.inr ⟨n, h1⟩
        · exact Or.inl h1
      · rw [if_neg hn] at h
        rcases ih (n / 10) (digitChar (n % 10) :: acc) c h with h1 | h1
        · rcases List.mem_cons.mp h1 with h2 | h2
          · exact Or.inr ⟨n % 10, h2⟩
          · exact Or.inl h2
        · exact Or.inr h1

theorem numStr_mem (n : Nat) (c : Char) (h : c ∈ numStr n) : ∃ d, c = digitChar d := by
  rcases numStrCore_mem (n + 1) n [] c h with h' | h'
  · simp at h'
  · exact h'

theorem numStr_digit_range (n : Nat) (c : Char) (h : c ∈ numStr n) :
    48 ≤ c.toNat ∧ c.toNat ≤ 57 := by
  rcases numStr_mem n c h with ⟨d, rfl⟩
  exact digitChar_spec d

theorem numStr_not_newline (n : Nat) : '\n' ∉ numStr n := by
  intro h
  have := numStr_digit_range n '\n' h
  simp at this

theorem numStr_not_esc (n : Nat) : '\x1b' ∉ numStr n := by
  intro h
  have := numStr_digit_range n '\x1b' h
  simp at this

theorem caretBody_mem (line : List Char) (ms : List Span) :
    ∀ start c, c ∈ caretBody line start ms → c = ' ' ∨ c = '^' := by
  induction ms with
  | nil => intro start c h; simp [caretBody] at h
  | cons p rest ih =>
      intro start c h
      obtain ⟨s, e⟩ := p
      unfold caretBody at h
      rcases List.mem_append.mp h with h1 | h1
      · rcases List.mem_append.mp h1 with h2 | h2
        · exact Or.inl (List.eq_of_mem_replicate h2)
        · rcases List.mem_cons.mp h2 with h3 | h3
          · exact Or.inr h3
          · exact Or.inl (List.eq_of_mem_replicate h3)
      · exact ih e c h1

theorem caretBody_ne_nil (line : List Char) (start : Nat) (p : Span) (rest : List Span) :
    caretBody line start (p :: rest) ≠ [] := by
  obtain ⟨s, e⟩ := p
  simp [caretBody]

theorem colorBody_ne_nil (line : List Char) (start : Nat) (p : Span) (rest : List Span) :
    colorBody line start (p :: rest) ≠ [] := by
  obtain ⟨s, e⟩ := p
  simp [colorBody, ansi_red]

/-- C1: for every formatter variant (Standard, Color, Underline, Machine)
and every source identifier, line number and line text, `format_string`
applied to an empty list of match spans returns the empty string. -/
theorem formatters_empty_on_empty_matches (fmt : Formatter) (file_name : List Char)
    (line_number : Nat) (line : List Char) :
    IFormatter.format_string fmt [] file_name line_number line = [] := by
  cases fmt <;> rfl

/-- C2: for every line with at least one match span, the Machine
formatter's output is
`"{source_id}:{line_number}:{start}:{line_text[start:end]}\n"` built from
the first span `(s, e)` alone; the remaining spans do not occur in the
result, so they have no effect on it. -/
theorem machine_first_span_only (s e : Nat) (rest : List Span) (file_name : List Char)
    (line_number : Nat) (line : List Char) :
    MachineFormatter.format_string ((s, e) :: rest) file_name line_number line
      = file_name ++ ':' :: numStr line_number ++ ':' :: numStr s
          ++ ':' :: pySlice line s e ++ ['\n'] := rfl

theorem underlineCaretRow_eq (line : List Char) (ms : List Span) :
    underlineCaretRow line ms
      = caretBody line 0 ms ++ List.replicate (line.drop (finalStart 0 ms)).length ' ' := by
  unfold underlineCaretRow
  rw [underlineCaretLoop_eq]
  simp

theorem underlineCaretRow_mem (line : List Char) (ms : List Span) (c : Char)
    (h : c ∈ underlineCaretRow line ms) : c = ' ' ∨ c = '^' := by
  rw [underlineCaretRow_eq] at h
  rcases List.mem_append.mp h with h1 | h1
  · exact caretBody_mem line ms 0 c h1
  · exact Or.inl (List.eq_of_mem_replicate h1)

/-- C10: for every line whose match-span list is non-empty, the Color
formatter returns non-empty output; its `colored_line` is the
concatenation of per-span segments, and a zero-length span `(s, s)`
contributes its preceding unmatched segment followed by an adjacent
`ansi_red`/`ansi_reset` pair around the empty matched substring, so the
built line always contains at least one control pair. -/
theorem color_nonempty_on_spans (ms : List Span) (file_name : List Char)
    (line_number : Nat) (line : List Char) (h : ms ≠ []) :
    ColorFormatter.format_string ms file_name line_number line ≠ []
    ∧ ColorFormatter.format_string ms file_name line_number line
        = file_name ++ ' ' :: numStr line_number
            ++ ' ' :: (colorBody line 0 ms ++ line.drop (finalStart 0 ms))
    ∧ ∀ start s rest, colorBody line start ((s, s) :: rest)
        = pySlice line start s ++ (ansi_red ++ ansi_reset) ++ colorBody line s rest := by
  obtain ⟨p, rest0, rfl⟩ := List.exists_cons_of_ne_nil h
  have hpos : 0 < (colorBody line 0 (p :: rest0)).length :=
    List.length_pos.mpr (colorBody_ne_nil line 0 p rest0)
  have heq : ColorFormatter.format_string (p :: rest0) file_name line_number line
      = file_name ++ ' ' :: numStr line_number
          ++ ' ' :: (colorBody line 0 (p :: rest0) ++ line.drop (finalStart 0 (p :: rest0))) := by
    unfold ColorFormatter.format_string
    rw [colorLoop_eq]
    simp [hpos]
  refine ⟨?_, heq, ?_⟩
  · rw [heq]
    simp
  · intro start s rest
    simp [colorBody, pySlice, List.append_assoc]

theorem color_nonempty_on_spans_witness :
    ([((0 : Nat), (0 : Nat))] ≠ ([] : List Span))
    ∧ ColorFormatter.format_string [(0, 0)] ['f'] 1 ['a'] ≠ [] :=
  ⟨by decide, (color_nonempty_on_spans [(0, 0)] ['f'] 1 ['a'] (by decide)).1⟩

/-- C4 (counterexample): on the line text `"foo"` — which has no trailing
newline — with one span, the Underline formatter's output contains a
single newline character (the final one), so it consists of one physical
line, not two: the formatter inserts no newline between the text row and
the caret row, relying on the line's own terminator. -/
theorem underline_two_rows_counterexample :
    (UnderlineFormatter.format_string [(0, 1)] ['f'] 1 "foo".toList).count '\n' = 1
    ∧ UnderlineFormatter.format_string [(0, 1)] ['f'] 1 "foo".toList
        = "f 1 foo    ^  \n".toList := by
  constructor <;> decide

theorem replicate_length_append (l1 l2 : List Char) (a : Char) :
    List.replicate (l1 ++ l2).length a
      = List.replicate l1.length a ++ List.replicate l2.length a := by
  rw [List.length_append, List.replicate_add]

theorem replicate_length_cons (c : Char) (l : List Char) (a : Char) :
    List.replicate (c :: l).length a = a :: List.replicate l.length a := by
  simp [List.replicate_succ]

/-- C4 (amended): for every line text of the form `body ++ "\n"` (a
newline-terminated line with no interior newline, as file iteration and
`sys.stdin` produce), a newline-free source identifier and a non-empty
span list, the Underline output is exactly two physical lines: the text
row `"{source_id} {line_number} {body}\n"` — whose terminator is the
line text's own — followed by alignment padding as wide as
`"{source_id} {line_number} "`, then the caret row, then a final
newline; the padding and caret row contain no newline. -/
theorem underline_two_rows (ms : List Span) (file_name : List Char) (line_number : Nat)
    (body : List Char) (hms : ms ≠ []) (hnm : '\n' ∉ file_name) (hbody : '\n' ∉ body) :
    UnderlineFormatter.format_string ms file_name line_number (body ++ ['\n'])
      = (file_name ++ ' ' :: numStr line_number ++ ' ' :: body ++ ['\n'])
        ++ (List.replicate (file_name ++ ' ' :: numStr line_number ++ [' ']).length ' '
            ++ underlineCaretRow (body ++ ['\n']) ms ++ ['\n'])
    ∧ '\n' ∉ file_name ++ ' ' :: numStr line_number ++ ' ' :: body
    ∧ '\n' ∉ List.replicate (file_name ++ ' ' :: numStr line_number ++ [' ']).length ' '
        ++ underlineCaretRow (body ++ ['\n']) ms := by
  obtain ⟨p, rest0, rfl⟩ := List.exists_cons_of_ne_nil hms
  have hpad : List.replicate (file_name ++ ' ' :: numStr line_number ++ [' ']).length ' '
      = List.replicate file_name.length ' '
        ++ ' ' :: (List.replicate (numStr line_number).length ' ' ++ [' ']) := by
    rw [replicate_length_append, replicate_length_append, replicate_length_cons]
    simp
  refine ⟨?_, ?_, ?_⟩
  · have hpos : 0 < (caretBody (body ++ ['\n']) 0 (p :: rest0)).length :=
      List.length_pos.mpr (caretBody_ne_nil (body ++ ['\n']) 0 p rest0)
    unfold UnderlineFormatter.format_string
    rw [underlineCaretLoop_eq, underlineCaretRow_eq, hpad]
    simp [hpos, List.append_assoc]
  · intro hmem
    rcases List.mem_append.mp hmem with h1 | h1
    · rcases List.mem_append.mp h1 with h2 | h2
      · exact hnm h2
      · rcases List.mem_cons.mp h2 with h3 | h3
        · exact absurd h3 (by decide)
        · exact numStr_not_newline line_number h3
    · rcases List.mem_cons.mp h1 with h2 | h2
      · exact absurd h2 (by decide)
      · exact hbody h2
  · intro hmem
    rcases List.mem_append.mp hmem with h1 | h1
    · have := List.eq_of_mem_replicate h1
      simp at this
    · rcases underlineCaretRow_mem (body ++ ['\n']) (p :: rest0) '\n' h1 with h2 | h2 <;>
        simp at h2

theorem underline_two_rows_witness :
    (([((0 : Nat), (1 : Nat))] : List Span) ≠ [] ∧ '\n' ∉ ['f'] ∧ '\n' ∉ "foo".toList)
    ∧ UnderlineFormatter.format_string [(0, 1)] ['f'] 1 ("foo".toList ++ ['\n'])
        = (['f'] ++ ' ' :: numStr 1 ++ ' ' :: "foo".toList ++ ['\n'])
          ++ (List.replicate (['f'] ++ ' ' :: numStr 1 ++ [' ']).length ' '
              ++ underlineCaretRow ("foo".toList ++ ['\n']) [(0, 1)] ++ ['\n']) :=
  ⟨⟨by decide, by decide, by decide⟩,
    (underline_two_rows [(0, 1)] ['f'] 1 "foo".toList (by decide) (by decide) (by decide)).1⟩

/-- C7 (counterexample): the stdin reader stops at the line `"q \n"`,
although after trimming only the line terminator that line's content is
`"q "`, not the single character `'q'` — the source tests
`line.rstrip()`, which strips all trailing whitespace, not only the
terminator.  Under the claim both lines would be returned; the code
returns neither. -/
theorem stdin_sentinel_counterexample :
    read_from_stdin ["q \n".toList, "a\n".toList] = []
    ∧ stripLineTerminatorSpec "q \n".toList ≠ ['q']
    ∧ stripLineTerminatorSpec "a\n".toList ≠ ['q'] := by
  refine ⟨by decide, by decide, by decide⟩

/-- C7 (amended): reading from standard input terminates early exactly
when a line's content with all trailing whitespace stripped (Python
`rstrip()`) equals the single character `'q'`: the lines returned are
the longest sentinel-free prefix, the sentinel line itself is excluded,
and the lines are supplied to `_print_matches` with source identifier
`"STDIN"`. -/
theorem stdin_sentinel_rstrip :
    (∀ stdin_lines : List (List Char),
      read_from_stdin stdin_lines
        = stdin_lines.takeWhile (fun l => !(rstrip l == ['q'])))
    ∧ (∀ stdin_lines l, l ∈ read_from_stdin stdin_lines → rstrip l ≠ ['q'])
    ∧ (∀ (compile : RegexCompiler) (regex : List Char) (fmt : Formatter)
        (strings_list : List (List Char)),
        print_matches_from_strings compile regex fmt strings_list
          = printMatchesInner compile regex fmt strings_list ("STDIN".toList)) := by
  have hread : ∀ stdin_lines : List (List Char),
      read_from_stdin stdin_lines
        = stdin_lines.takeWhile (fun l => !(rstrip l == ['q'])) := by
    intro stdin_lines
    induction stdin_lines with
    | nil => rfl
    | cons line rest ih =>
        by_cases h : rstrip line = ['q']
        · simp [read_from_stdin, List.takeWhile_cons, h]
        · simp [read_from_stdin, List.takeWhile_cons, h, ih]
  refine ⟨hread, ?_, fun _ _ _ _ => rfl⟩
  intro stdin_lines l hl
  rw [hread] at hl
  have := List.mem_takeWhile_imp hl
  simpa using this

/-- C6: whenever pattern compilation fails, `_print_matches` prints the
`Bad regex` diagnostic — which contains the offending pattern text —
and terminates with exit code 1 producing no formatted match output,
and both entry points (`print_matches_from_strings` and
`print_matches_from_files`, even with further files pending) propagate
exactly that behaviour. -/
theorem invalid_pattern_diagnostic_exit1 (compile : RegexCompiler) (regex ex : List Char)
    (fmt : Formatter) (iterable : List (List Char)) (file_name : List Char)
    (lines : List (List Char)) (files : List (List Char × List (List Char)))
    (h : compile regex = .error ex) :
    printMatchesInner compile regex fmt iterable file_name
      = ⟨[badRegexDiagnostic ex regex], 1, 1⟩
    ∧ print_matches_from_strings compile regex fmt iterable
      = ⟨[badRegexDiagnostic ex regex], 1, 1⟩
    ∧ print_matches_from_files compile regex fmt ((file_name, lines) :: files)
      = ⟨[badRegexDiagnostic ex regex], 1, 1⟩
    ∧ ∃ u v, badRegexDiagnostic ex regex = u ++ regex ++ v := by
  have h1 : ∀ it nm, printMatchesInner compile regex fmt it nm
      = ⟨[badRegexDiagnostic ex regex], 1, 1⟩ := by
    intro it nm
    unfold printMatchesInner
    rw [h]
  refine ⟨h1 iterable file_name, h1 iterable STDIN_ID, ?_, ?_⟩
  · unfold print_matches_from_files
    rw [h1 lines file_name]
    simp
  · refine ⟨"Bad regex, ".toList ++ ex ++ ", regex: \x22".toList, "\x22\n".toList, ?_⟩
    simp [badRegexDiagnostic, List.append_assoc]

/-- A compile function that always succeeds with a pattern matching
nothing; a concrete instantiation of the abstract `re.compile` model. -/
def noMatchCompiler : RegexCompiler := fun _ => .ok (fun _ => [])

theorem invalid_pattern_diagnostic_exit1_witness :
    (fun _ => Except.error ("e".toList) : RegexCompiler) "(".toList = Except.error ("e".toList)
    ∧ printMatchesInner (fun _ => Except.error ("e".toList)) "(".toList .standard
        ["a".toList] STDIN_ID
      = ⟨[badRegexDiagnostic ("e".toList) "(".toList], 1, 1⟩ :=
  ⟨rfl, (invalid_pattern_diagnostic_exit1 (fun _ => Except.error ("e".toList)) "(".toList
    ("e".toList) .standard ["a".toList] STDIN_ID [] [] rfl).1⟩

/-- C8 (counterexample): on a run over two input files with a valid
pattern, `re.compile` is invoked twice — once per `_print_matches` call,
i.e. once per file — not exactly once. -/
theorem compile_once_counterexample :
    (print_matches_from_files noMatchCompiler ['a'] .standard
      [(['f'], [['x']]), (['g'], [['y']])]).compiles = 2
    ∧ (2 : Nat) ≠ 1 :=
  ⟨rfl, by decide⟩

/-- C8 (amended): the user-supplied pattern string is compiled once per
`_print_matches` call: exactly once per input file on a file run (and
exactly once on a stdin run); every line of every file is scanned with
the pattern obtained by compiling that same string, so all files are
scanned with an identical pattern. -/
theorem compile_once_per_file (compile : RegexCompiler) (regex : List Char)
    (p : List Char → List Span) (fmt : Formatter)
    (files : List (List Char × List (List Char))) (h : compile regex = .ok p) :
    print_matches_from_files compile regex fmt files
      = ⟨(files.map (fun f => formatLines p fmt f.1 1 f.2)).flatten, 0, files.length⟩
    ∧ ∀ strings_list, (print_matches_from_strings compile regex fmt strings_list).compiles = 1 := by
  constructor
  · induction files with
    | nil => rfl
    | cons f rest ih =>
        obtain ⟨file_name, lines⟩ := f
        unfold print_matches_from_files
        rw [ih]
        unfold printMatchesInner
        rw [h]
        simp
        omega
  · intro strings_list
    unfold print_matches_from_strings printMatchesInner
    rw [h]

theorem compile_once_per_file_witness :
    noMatchCompiler ['a'] = Except.ok (fun _ => [])
    ∧ print_matches_from_files noMatchCompiler ['a'] .standard
        [(['f'], [['x']]), (['g'], [['y']])] = ⟨[], 0, 2⟩ :=
  ⟨rfl, by
    rw [(compile_once_per_file noMatchCompiler ['a'] (fun _ => []) .standard
      [(['f'], [['x']]), (['g'], [['y']])] rfl).1]
    rfl⟩

theorem formatLines_append (finditer : List Char → List Span) (fmt : Formatter)
    (file_name : List Char) (a : List (List Char)) :
    ∀ (b : List (List Char)) (n : Nat),
      formatLines finditer fmt file_name n (a ++ b)
        = formatLines finditer fmt file_name n a
          ++ formatLines finditer fmt file_name (n + a.length) b := by
  induction a with
  | nil => intro b n; simp [formatLines]
  | cons line rest ih =>
      intro b n
      simp only [List.cons_append, formatLines, List.append_eq]
      rw [ih b (n + 1)]
      simp only [List.length_cons]
      rw [show n + (rest.length + 1) = n + 1 + rest.length from by omega]
      split <;> simp

/-- C9: for file input the sentinel does not apply: a file line whose
`rstrip()` equals `'q'` is scanned and formatted like any other line
(its contribution is exactly the formatter's output on it, kept when
non-empty), reading continues past it through the rest of the file with
line numbers advancing, while `read_from_stdin` stops at such a line
immediately. -/
theorem file_lines_not_truncated_at_sentinel (compile : RegexCompiler) (regex : List Char)
    (p : List Char → List Span) (fmt : Formatter) (file_name ql : List Char)
    (pre post : List (List Char)) (h : compile regex = .ok p) (hq : rstrip ql = ['q']) :
    (print_matches_from_files compile regex fmt [(file_name, pre ++ ql :: post)]).output
      = formatLines p fmt file_name 1 pre
        ++ formatLines p fmt file_name (pre.length + 1) [ql]
        ++ formatLines p fmt file_name (pre.length + 2) post
    ∧ formatLines p fmt file_name (pre.length + 1) [ql]
        = (if IFormatter.format_string fmt (p ql) file_name (pre.length + 1) ql = [] then []
           else [IFormatter.format_string fmt (p ql) file_name (pre.length + 1) ql])
    ∧ read_from_stdin (ql :: post) = [] := by
  refine ⟨?_, ?_, ?_⟩
  · have hrun : (print_matches_from_files compile regex fmt
        [(file_name, pre ++ ql :: post)]).output
        = formatLines p fmt file_name 1 (pre ++ ql :: post) := by
      simp [print_matches_from_files, printMatchesInner, h]
    rw [hrun, show ql :: post = [ql] ++ post from rfl, formatLines_append, formatLines_append]
    rw [show (1 : Nat) + pre.length = pre.length + 1 from by omega]
    rw [show pre.length + 1 + ([ql] : List (List Char)).length = pre.length + 2 from by simp]
    simp [List.append_assoc]
  · simp only [formatLines]
  · unfold read_from_stdin
    rw [hq]
    simp

theorem file_lines_not_truncated_at_sentinel_witness :
    (noMatchCompiler ['a'] = Except.ok (fun _ => []) ∧ rstrip ("q\n".toList) = ['q'])
    ∧ (print_matches_from_files noMatchCompiler ['a'] .standard
        [(['f'], [] ++ "q\n".toList :: ["a\n".toList])]).output
      = formatLines (fun _ => []) .standard ['f'] 1 []
        ++ formatLines (fun _ => []) .standard ['f'] 1 ["q\n".toList]
        ++ formatLines (fun _ => []) .standard ['f'] 2 ["a\n".toList] :=
  ⟨⟨rfl, by decide⟩,
    (file_lines_not_truncated_at_sentinel noMatchCompiler ['a'] (fun _ => []) .standard
      ['f'] ("q\n".toList) [] ["a\n".toList] rfl (by decide)).1⟩

/-- Well-formed span lists as `re.finditer` produces them from position
`start` on a line of length `len`, restricted to positive-length
matches: each span starts at or after the previous end and ends strictly
after it starts, and positions stay within the line. -/
def spansWithin (len start : Nat) : List Span → Prop
  | [] => start ≤ len
  | (s, e) :: rest => start ≤ s ∧ s < e ∧ spansWithin len e rest

theorem spansWithin_le (len : Nat) :
    ∀ (ms : List Span) (start : Nat), spansWithin len start ms → start ≤ len := by
  intro ms
  induction ms with
  | nil => intro start h; exact h
  | cons p rest ih =>
      intro start h
      obtain ⟨s, e⟩ := p
      obtain ⟨h1, h2, h3⟩ := h
      have := ih e h3
      omega

theorem finalStart_ge (len : Nat) :
    ∀ (ms : List Span) (start : Nat), spansWithin len start ms → start ≤ finalStart start ms := by
  intro ms
  induction ms with
  | nil => intro start _; exact Nat.le_refl start
  | cons p rest ih =>
      intro start h
      obtain ⟨s, e⟩ := p
      obtain ⟨h1, h2, h3⟩ := h
      have := ih e h3
      simp only [finalStart]
      omega

theorem finalStart_le (len : Nat) :
    ∀ (ms : List Span) (start : Nat), spansWithin len start ms → finalStart start ms ≤ len := by
  intro ms
  induction ms with
  | nil => intro start h; exact h
  | cons p rest ih =>
      intro start h
      obtain ⟨s, e⟩ := p
      obtain ⟨h1, h2, h3⟩ := h
      exact ih e h3

theorem spans_start_lt (len : Nat) :
    ∀ (ms : List Span) (b j : Nat), spansWithin len b ms → j < b →
      ms.any (fun p => p.1 == j) = false := by
  intro ms
  induction ms with
  | nil => intro b j _ _; rfl
  | cons p rest ih =>
      intro b j h hj
      obtain ⟨s, e⟩ := p
      obtain ⟨h1, h2, h3⟩ := h
      simp only [List.any_cons, Bool.or_eq_false_iff]
      constructor
      · simp only [beq_eq_false_iff_ne, ne_eq]
        omega
      · exact ih e j h3 (by omega)

theorem pySlice_length (l : List Char) (a b : Nat) (h1 : a ≤ b) (h2 : b ≤ l.length) :
    (pySlice l a b).length = b - a := by
  simp only [pySlice, List.length_take, List.length_drop]
  omega

theorem caretBody_length (line : List Char) :
    ∀ (ms : List Span) (start : Nat), spansWithin line.length start ms →
      (caretBody line start ms).length = finalStart start ms - start := by
  intro ms
  induction ms with
  | nil => intro start _; simp [caretBody, finalStart]
  | cons p rest ih =>
      intro start h
      obtain ⟨s, e⟩ := p
      obtain ⟨h1, h2, h3⟩ := h
      have he : e ≤ line.length := spansWithin_le line.length rest e h3
      have hs : s ≤ line.length := by omega
      have hfin := finalStart_ge line.length rest e h3
      simp only [caretBody, finalStart, List.length_append, List.length_cons,
        List.length_replicate, ih e h3, List.length_take,
        pySlice_length line start s (by omega) hs, pySlice_length line s e (by omega) he]
      omega

theorem caretRow_getElem (line : List Char) :
    ∀ (ms : List Span) (start j : Nat), spansWithin line.length start ms →
      start ≤ j → j < line.length →
      (caretBody line start ms
        ++ List.replicate (line.length - finalStart start ms) ' ')[j - start]?
        = some (if ms.any (fun p => p.1 == j) then '^' else ' ') := by
  intro ms
  induction ms with
  | nil =>
      intro start j _ hj1 hj2
      simp only [caretBody, finalStart, List.nil_append, List.any_nil,
        Bool.false_eq_true, if_false]
      rw [List.getElem?_replicate, if_pos (by omega)]
  | cons p rest ih =>
      intro start j h hj1 hj2
      obtain ⟨s, e⟩ := p
      obtain ⟨h1, h2, h3⟩ := h
      have he : e ≤ line.length := spansWithin_le line.length rest e h3
      have hs : s ≤ line.length := by omega
      have hA : (pySlice line start s).length = s - start :=
        pySlice_length line start s (by omega) hs
      have hm : (pySlice line s e).length = e - s := pySlice_length line s e (by omega) he
      have hB : ((pySlice line s e).take ((pySlice line s e).length - 1)).length
          = e - s - 1 := by
        simp only [List.length_take, hm]
        omega
      simp only [caretBody, finalStart, List.append_assoc, List.cons_append]
      rw [hA, hB]
      by_cases hblock : j < s
      · rw [List.getElem?_append_left (by rw [List.length_replicate]; omega)]
        rw [List.getElem?_replicate, if_pos (by omega)]
        have hne : (s == j) = false := by
          simp only [beq_eq_false_iff_ne, ne_eq]
          omega
        have hrest : rest.any (fun p => p.1 == j) = false :=
          spans_start_lt line.length rest e j h3 (by omega)
        simp [List.any_cons, hne, hrest]
      · rw [List.getElem?_append_right (by rw [List.length_replicate]; omega)]
        rw [List.length_replicate]
        by_cases hcaret : j = s
        · rw [show j - start - (s - start) = 0 from by omega, List.getElem?_cons_zero]
          have hyes : (s == j) = true := by
            simp only [beq_iff_eq]
            omega
          simp [List.any_cons, hyes]
        · have hne : (s == j) = false := by
            simp only [beq_eq_false_iff_ne, ne_eq]
            omega
          by_cases hin : j < e
          · rw [show j - start - (s - start) = (j - s - 1) + 1 from by omega,
              List.getElem?_cons_succ]
            rw [List.getElem?_append_left (by rw [List.length_replicate]; omega)]
            rw [List.getElem?_replicate, if_pos (by omega)]
            have hrest : rest.any (fun p => p.1 == j) = false :=
              spans_start_lt line.length rest e j h3 (by omega)
            simp [List.any_cons, hne, hrest]
          · rw [show j - start - (s - start) = ((j - s - 1) - (e - s - 1)) + (e - s - 1) + 1
                from by omega, List.getElem?_cons_succ]
            rw [List.getElem?_append_right (by rw [List.length_replicate]; omega)]
            rw [List.length_replicate]
            rw [show (j - s - 1) - (e - s - 1) + (e - s - 1) - (e - s - 1) = j - e
                from by omega]
            rw [ih e j h3 (by omega) hj2]
            simp only [List.any_cons, hne, Bool.false_or]

/-- C5 (counterexample): with the zero-length span `(1, 1)` on the line
`"ab"`, the caret row is `" ^ "`, of length 3 ≠ 2 = the line length:
each zero-length span still emits one caret column, lengthening the
caret row and shifting every later position.  The full Underline output
on this input is shown for concreteness. -/
theorem underline_caret_zero_len_counterexample :
    underlineCaretRow ['a', 'b'] [(1, 1)] = [' ', '^', ' ']
    ∧ (underlineCaretRow ['a', 'b'] [(1, 1)]).length ≠ (['a', 'b'] : List Char).length
    ∧ UnderlineFormatter.format_string [(1, 1)] ['f'] 1 ['a', 'b']
        = "f 1 ab     ^ \n".toList := by
  refine ⟨by decide, by decide, by decide⟩

/-- C5 (amended): for every non-empty ordered list of non-overlapping
positive-length match spans lying within the line, the caret row
(the part of the Underline output after the alignment padding, before
the final newline) has exactly the line text's length, holds a caret
exactly at each span's start index, and spaces everywhere else.  (The
claim's inclusion of zero-length spans fails: each zero-length span
inserts one extra caret column, see the counterexample.) -/
theorem underline_caret_row_positive_spans (ms : List Span) (file_name line : List Char)
    (line_number : Nat) (hms : ms ≠ []) (hsp : spansWithin line.length 0 ms) :
    (underlineCaretRow line ms).length = line.length
    ∧ (∀ i, i < line.length →
        (underlineCaretRow line ms)[i]?
          = some (if ms.any (fun p => p.1 == i) then '^' else ' '))
    ∧ UnderlineFormatter.format_string ms file_name line_number line
        = file_name ++ ' ' :: numStr line_number ++ ' ' :: line
          ++ List.replicate file_name.length ' '
          ++ ' ' :: List.replicate (numStr line_number).length ' '
          ++ ' ' :: underlineCaretRow line ms ++ ['\n'] := by
  obtain ⟨p, rest0, rfl⟩ := List.exists_cons_of_ne_nil hms
  have hrow : underlineCaretRow line (p :: rest0)
      = caretBody line 0 (p :: rest0)
        ++ List.replicate (line.length - finalStart 0 (p :: rest0)) ' ' := by
    rw [underlineCaretRow_eq, List.length_drop]
  refine ⟨?_, ?_, ?_⟩
  · rw [hrow]
    simp only [List.length_append, List.length_replicate,
      caretBody_length line (p :: rest0) 0 hsp]
    have := finalStart_le line.length (p :: rest0) 0 hsp
    omega
  · intro i hi
    rw [hrow]
    have := caretRow_getElem line (p :: rest0) 0 i hsp (by omega) hi
    simpa using this
  · have hpos : 0 < (caretBody line 0 (p :: rest0)).length :=
      List.length_pos.mpr (caretBody_ne_nil line 0 p rest0)
    unfold UnderlineFormatter.format_string
    rw [underlineCaretLoop_eq, underlineCaretRow_eq]
    simp [hpos, List.append_assoc]

theorem underline_caret_row_positive_spans_witness :
    (([((0 : Nat), (1 : Nat))] : List Span) ≠ []
      ∧ spansWithin (['a', 'b'] : List Char).length 0 [(0, 1)])
    ∧ (underlineCaretRow ['a', 'b'] [(0, 1)]).length = (['a', 'b'] : List Char).length :=
  ⟨⟨by decide, by simp [spansWithin]⟩,
    (underline_caret_row_positive_spans [(0, 1)] ['f'] ['a', 'b'] 1 (by decide)
      (by simp [spansWithin])).1⟩

/-- Removal of all occurrences of the start-red control sequence
`ansi_red` from a string, scanning left to right and resuming right
after each removed occurrence — the stripping operation of C3's
round-trip. -/
def stripRed : List Char → List Char
  | '\x1b' :: '[' :: '3' :: '1' :: 'm' :: rest => stripRed rest
  | c :: rest => c :: stripRed rest
  | [] => []

/-- Removal of all occurrences of the reset control sequence
`ansi_reset`, scanning left to right. -/
def stripReset : List Char → List Char
  | '\x1b' :: '[' :: '0' :: 'm' :: rest => stripReset rest
  | c :: rest => c :: stripReset rest
  | [] => []

/-- Ordered, non-overlapping span lists starting at or after `start`
(zero-length spans allowed): the shape `re.finditer` results always
have. -/
def spansChain (start : Nat) : List Span → Prop
  | [] => True
  | (s, e) :: rest => start ≤ s ∧ s ≤ e ∧ spansChain e rest

/-- `colorBody` after the red sequences are removed. -/
def colorStrippedOnce (line : List Char) (start : Nat) : List Span → List Char
  | [] => []
  | (s, e) :: rest =>
      pySlice line start s ++ pySlice line s e ++ ansi_reset
        ++ colorStrippedOnce line e rest

/-- `colorBody` after both control sequences are removed: the line's
segments in order. -/
def plainBody (line : List Char) (start : Nat) : List Span → List Char
  | [] => []
  | (s, e) :: rest => pySlice line start s ++ pySlice line s e ++ plainBody line e rest

theorem stripRed_cons_ne (c : Char) (l : List Char) (h : c ≠ '\x1b') :
    stripRed (c :: l) = c :: stripRed l := by
  conv_lhs => rw [stripRed.eq_def]
  split
  · rename_i heq
    simp_all
  · rename_i heq
    injection heq with h1 h2
    subst h1
    subst h2
    rfl
  · rename_i heq
    simp at heq

theorem stripReset_cons_ne (c : Char) (l : List Char) (h : c ≠ '\x1b') :
    stripReset (c :: l) = c :: stripReset l := by
  conv_lhs => rw [stripReset.eq_def]
  split
  · rename_i heq
    simp_all
  · rename_i heq
    injection heq with h1 h2
    subst h1
    subst h2
    rfl
  · rename_i heq
    simp at heq

theorem stripRed_red (l : List Char) : stripRed (ansi_red ++ l) = stripRed l := rfl

theorem stripRed_reset (l : List Char) :
    stripRed (ansi_reset ++ l) = ansi_reset ++ stripRed l := rfl

theorem stripReset_reset (l : List Char) : stripReset (ansi_reset ++ l) = stripReset l := rfl

theorem stripRed_chunk (chunk : List Char) (h : '\x1b' ∉ chunk) :
    ∀ l, stripRed (chunk ++ l) = chunk ++ stripRed l := by
  induction chunk with
  | nil => intro l; rfl
  | cons c rest ih =>
      intro l
      rw [List.cons_append,
        stripRed_cons_ne c (rest ++ l) (by intro hc; exact h (hc ▸ List.mem_cons_self c rest)),
        ih (fun hm => h (List.mem_cons_of_mem c hm)) l, List.cons_append]

theorem stripReset_chunk (chunk : List Char) (h : '\x1b' ∉ chunk) :
    ∀ l, stripReset (chunk ++ l) = chunk ++ stripReset l := by
  induction chunk with
  | nil => intro l; rfl
  | cons c rest ih =>
      intro l
      rw [List.cons_append,
        stripReset_cons_ne c (rest ++ l) (by intro hc; exact h (hc ▸ List.mem_cons_self c rest)),
        ih (fun hm => h (List.mem_cons_of_mem c hm)) l, List.cons_append]

theorem stripRed_not_esc (l : List Char) (h : '\x1b' ∉ l) : stripRed l = l := by
  have := stripRed_chunk l h []
  simpa [show stripRed [] = ([] : List Char) from rfl] using this

theorem stripReset_not_esc (l : List Char) (h : '\x1b' ∉ l) : stripReset l = l := by
  have := stripReset_chunk l h []
  simpa [show stripReset [] = ([] : List Char) from rfl] using this

theorem pySlice_not_esc (l : List Char) (a b : Nat) (h : '\x1b' ∉ l) :
    '\x1b' ∉ pySlice l a b :=
  fun hm => h (List.drop_subset _ _ (List.take_subset _ _ hm))

theorem stripRed_colorBody (line : List Char) (hline : '\x1b' ∉ line) :
    ∀ (ms : List Span) (start : Nat) (tail : List Char), '\x1b' ∉ tail →
      stripRed (colorBody line start ms ++ tail)
        = colorStrippedOnce line start ms ++ tail := by
  intro ms
  induction ms with
  | nil =>
      intro start tail ht
      simp [colorBody, colorStrippedOnce, stripRed_not_esc tail ht]
  | cons p rest ih =>
      intro start tail ht
      obtain ⟨s, e⟩ := p
      have hseg : '\x1b' ∉ pySlice line start s := pySlice_not_esc line start s hline
      have hmid : '\x1b' ∉ pySlice line s e := pySlice_not_esc line s e hline
      simp only [colorBody, colorStrippedOnce, List.append_assoc]
      rw [stripRed_chunk _ hseg, stripRed_red, stripRed_chunk _ hmid, stripRed_reset,
        ih e tail ht]

theorem stripReset_strippedOnce (line : List Char) (hline : '\x1b' ∉ line) :
    ∀ (ms : List Span) (start : Nat) (tail : List Char), '\x1b' ∉ tail →
      stripReset (colorStrippedOnce line start ms ++ tail)
        = plainBody line start ms ++ tail := by
  intro ms
  induction ms with
  | nil =>
      intro start tail ht
      simp [colorStrippedOnce, plainBody, stripReset_not_esc tail ht]
  | cons p rest ih =>
      intro start tail ht
      obtain ⟨s, e⟩ := p
      have hseg : '\x1b' ∉ pySlice line start s := pySlice_not_esc line start s hline
      have hmid : '\x1b' ∉ pySlice line s e := pySlice_not_esc line s e hline
      simp only [colorStrippedOnce, plainBody, List.append_assoc]
      rw [stripReset_chunk _ hseg, stripReset_chunk _ hmid, stripReset_reset, ih e tail ht]

theorem pySlice_append_drop (l : List Char) (a b : Nat) (h : a ≤ b) :
    pySlice l a b ++ l.drop b = l.drop a := by
  have h2 : l.drop b = (l.drop a).drop (b - a) := by
    rw [List.drop_drop]
    congr 1
    omega
  rw [pySlice, h2, List.take_append_drop]

theorem plainBody_drop (line : List Char) :
    ∀ (ms : List Span) (start : Nat), spansChain start ms →
      plainBody line start ms ++ line.drop (finalStart start ms) = line.drop start := by
  intro ms
  induction ms with
  | nil => intro start _; simp [plainBody, finalStart]
  | cons p rest ih =>
      intro start h
      obtain ⟨s, e⟩ := p
      obtain ⟨h1, h2, h3⟩ := h
      simp only [plainBody, finalStart, List.append_assoc]
      rw [ih e h3, pySlice_append_drop line s e h2, pySlice_append_drop line start s h1]

theorem color_format_eq (ms : List Span) (file_name : List Char) (line_number : Nat)
    (line : List Char) (hms : ms ≠ []) :
    ColorFormatter.format_string ms file_name line_number line
      = file_name ++ ' ' :: numStr line_number
        ++ ' ' :: (colorBody line 0 ms ++ line.drop (finalStart 0 ms)) := by
  obtain ⟨p, rest0, rfl⟩ := List.exists_cons_of_ne_nil hms
  have hpos : 0 < (colorBody line 0 (p :: rest0)).length :=
    List.length_pos.mpr (colorBody_ne_nil line 0 p rest0)
  unfold ColorFormatter.format_string
  rw [colorLoop_eq]
  simp [hpos]

/-- C3 (counterexample): take the line text equal to the start-red
sequence itself, matched entirely by one span.  Stripping both control
sequences from the Color output and then removing the
`"{source_id} {line_number} "` prefix yields the empty string, not the
original line text: the removal also consumes the text's own
characters. -/
theorem color_roundtrip_counterexample :
    ColorFormatter.format_string [(0, 5)] ['f'] 1 ansi_red ≠ []
    ∧ spansChain 0 [(0, 5)]
    ∧ (stripReset (stripRed (ColorFormatter.format_string [(0, 5)] ['f'] 1 ansi_red))).drop
        (['f'] ++ ' ' :: numStr 1 ++ [' ']).length ≠ ansi_red := by
  refine ⟨by decide, by simp [spansChain], by decide⟩

/-- C3 (amended): for every source identifier and line text free of the
escape character (so containing no control sequences), every line
number and every non-empty ordered list of non-overlapping match spans,
removing all start-red occurrences and then all reset occurrences from
the (non-empty) Color output gives
`"{source_id} {line_number} {line_text}"`, and then removing the
leading `"{source_id} {line_number} "` prefix reproduces the line text
exactly. -/
theorem color_roundtrip_esc_free (ms : List Span) (file_name : List Char) (line_number : Nat)
    (line : List Char) (hms : ms ≠ []) (hnm : '\x1b' ∉ file_name) (hline : '\x1b' ∉ line)
    (hchain : spansChain 0 ms) :
    ColorFormatter.format_string ms file_name line_number line ≠ []
    ∧ stripReset (stripRed (ColorFormatter.format_string ms file_name line_number line))
        = file_name ++ ' ' :: numStr line_number ++ ' ' :: line
    ∧ (stripReset (stripRed (ColorFormatter.format_string ms file_name line_number line))).drop
        (file_name ++ ' ' :: numStr line_number ++ [' ']).length = line := by
  have heq := color_format_eq ms file_name line_number line hms
  have hdrop : '\x1b' ∉ line.drop (finalStart 0 ms) :=
    fun hm => hline (List.drop_subset _ _ hm)
  have hregroup : file_name ++ ' ' :: numStr line_number
      ++ ' ' :: (colorBody line 0 ms ++ line.drop (finalStart 0 ms))
      = file_name ++ (' ' :: (numStr line_number
          ++ (' ' :: (colorBody line 0 ms ++ line.drop (finalStart 0 ms))))) := by
    simp
  have hred : stripRed (ColorFormatter.format_string ms file_name line_number line)
      = file_name ++ (' ' :: (numStr line_number
          ++ (' ' :: (colorStrippedOnce line 0 ms ++ line.drop (finalStart 0 ms))))) := by
    rw [heq, hregroup, stripRed_chunk file_name hnm, stripRed_cons_ne ' ' _ (by decide),
      stripRed_chunk (numStr line_number) (numStr_not_esc line_number),
      stripRed_cons_ne ' ' _ (by decide), stripRed_colorBody line hline ms 0 _ hdrop]
  have hreset : stripReset (stripRed (ColorFormatter.format_string ms file_name line_number line))
      = file_name ++ ' ' :: numStr line_number ++ ' ' :: line := by
    rw [hred, stripReset_chunk file_name hnm, stripReset_cons_ne ' ' _ (by decide),
      stripReset_chunk (numStr line_number) (numStr_not_esc line_number),
      stripReset_cons_ne ' ' _ (by decide),
      stripReset_strippedOnce line hline ms 0 _ hdrop,
      plainBody_drop line ms 0 hchain]
    simp
  refine ⟨?_, hreset, ?_⟩
  · rw [heq]
    simp
  · rw [hreset,
      show file_name ++ ' ' :: numStr line_number ++ ' ' :: line
        = (file_name ++ ' ' :: numStr line_number ++ [' ']) ++ line from by simp,
      List.drop_left]

theorem color_roundtrip_esc_free_witness :
    (([((0 : Nat), (1 : Nat))] : List Span) ≠ [] ∧ '\x1b' ∉ ['f'] ∧ '\x1b' ∉ ['a', 'b']
      ∧ spansChain 0 [(0, 1)])
    ∧ (stripReset (stripRed (ColorFormatter.format_string [(0, 1)] ['f'] 1 ['a', 'b']))).drop
        (['f'] ++ ' ' :: numStr 1 ++ [' ']).length = ['a', 'b'] :=
  ⟨⟨by decide, by decide, by decide, by simp [spansChain]⟩,
    (color_roundtrip_esc_free [(0, 1)] ['f'] 1 ['a', 'b'] (by decide) (by decide) (by decide)
      (by simp [spansChain])).2.2⟩

theorem stdin_sentinel_rstrip_witness :
    read_from_stdin [['a', '\n'], ['q', '\n'], ['b', '\n']]
      = List.takeWhile (fun l => !(rstrip l == ['q'])) [['a', '\n'], ['q', '\n'], ['b', '\n']] :=
  stdin_sentinel_rstrip.1 [['a', '\n'], ['q', '\n'], ['b', '\n']]
